import Mathlib

/-!
Verification of the two components specified for this repository
(`modules/decollate_batch.ipynb` and `acceleration/multi_gpu_test.ipynb`):
the Batch Decollation Adapter and the Device-Dispatching Training Step
Builder.  The notebooks are callers of `monai.data.decollate_batch` and
`monai.engines.create_multigpu_supervised_trainer`, whose bodies are not
part of this repository; those components are therefore modelled from the
specification (spec.md sections 3, 4.1, 4.2, 7), while the code that does
appear in the notebooks (`fake_data_stream`, the evaluation loop) is
embedded from the source.
-/

namespace Decollate

/-- A field value inside a BatchRecord.  Modelled from the spec: a field is
either batch-shaped (an ordered sequence of per-sample payloads, outer
axis = batch axis) or explicitly marked as shared metadata, in which case
the whole value is duplicated into every output sample. -/
inductive FieldVal (α : Type) where
  | batch (items : List α)
  | shared (v : α)
deriving Repr, DecidableEq

/-- Modelled from the spec: a BatchRecord is a mapping from field name to a
batch-major value; the ordered association list keeps the relative key
ordering the spec requires to be preserved. -/
abbrev BatchRecord (α : Type) : Type := List (String × FieldVal α)

/-- Modelled from the spec: a SampleRecord maps each field name to a single
unbatched payload. -/
abbrev SampleRecord (α : Type) : Type := List (String × α)

/-- Error taxonomy of the decollation adapter, from spec section 7. -/
inductive DecollateError where
  | inconsistentBatchSize
  | emptyBatch
deriving Repr, DecidableEq

/-- Modelled from the spec (algorithm step 1): the batch size N is taken
from the first batch-shaped field encountered. -/
def batchSize? {α : Type} (rec : BatchRecord α) : Option Nat :=
  rec.findSome? (fun kv =>
    match kv.2 with
    | FieldVal.batch items => some items.length
    | FieldVal.shared _ => none)

/-- Modelled from the spec (algorithm step 2): building the i-th
SampleRecord, each batch-shaped field contributes its element at position
i, and a shared-metadata field is copied whole. -/
def sampleAt {α : Type} (rec : BatchRecord α) (i : Nat) : SampleRecord α :=
  rec.filterMap (fun kv =>
    match kv.2 with
    | FieldVal.batch items => (items[i]?).map (fun x => (kv.1, x))
    | FieldVal.shared v => some (kv.1, v))

/-- Modelled from the spec: the consistency check of section 4.1 — every
batch-shaped field must have outer length N (shared-metadata fields are
exempt). -/
def consistent {α : Type} (rec : BatchRecord α) (n : Nat) : Bool :=
  rec.all (fun kv =>
    match kv.2 with
    | FieldVal.batch items => items.length == n
    | FieldVal.shared _ => true)

/-- Modelled from the spec: the sample-building loop in state-passing form;
the BatchRecord is the threaded state, so that mutation of the input (spec:
"must not mutate the input BatchRecord") is observable in the embedding.
Each iteration reads the record to build one sample and passes the record
on unchanged. -/
def decollateLoop {α : Type} (st : BatchRecord α) :
    List Nat → List (SampleRecord α) × BatchRecord α
  | [] => ([], st)
  | i :: is =>
    let s := sampleAt st i
    let (rest, st2) := decollateLoop st is
    (s :: rest, st2)

/-- Modelled from the spec: `decollate_batch` (the Batch Decollation
Adapter of section 4.1, named after the library symbol the notebook calls),
in state-passing form: the second component of the result is the caller's
view of the input record after the call.  Policy choices documented by the
spec are resolved as: a record with no batch-shaped field fails with
EmptyBatch; N = 0 yields the valid empty sequence. -/
def decollate_batchS {α : Type} (rec : BatchRecord α) :
    Except DecollateError (List (SampleRecord α)) × BatchRecord α :=
  match batchSize? rec with
  | none => (Except.error DecollateError.emptyBatch, rec)
  | some n =>
    if consistent rec n then
      let (samples, rec2) := decollateLoop rec (List.range n)
      (Except.ok samples, rec2)
    else
      (Except.error DecollateError.inconsistentBatchSize, rec)

/-- Modelled from the spec: the value-level decollation function
`decollate(batchRecord) -> sequence<SampleRecord>` of section 6. -/
def decollate_batch {α : Type} (rec : BatchRecord α) :
    Except DecollateError (List (SampleRecord α)) :=
  (decollate_batchS rec).1

/-- Modelled from the spec (round-trip law of section 8): re-collating a
sequence of SampleRecords stacks each field of the first sample along a
new outer axis, in the order of the first sample's keys. -/
def collate {α : Type} : List (SampleRecord α) → BatchRecord α
  | [] => []
  | s0 :: rest =>
    s0.map (fun kv =>
      (kv.1, FieldVal.batch ((s0 :: rest).filterMap (fun s => List.lookup kv.1 s))))

end Decollate

/-- A tensor, shallowly embedded: a shape and flat integer data (the
numeric payloads of the notebooks; their float values carry no logic that
the claims depend on). -/
structure Tensor where
  shape : List Nat
  data : List Int
deriving Repr, DecidableEq

namespace MultiGpu

/-- Compute-device identifiers.  Modelled from the spec: CPU or an
accelerator index; a host is described by the list of accelerator indices
physically present. -/
inductive Device where
  | cpu
  | accel (id : Nat)
deriving Repr, DecidableEq

/-- Modelled from the spec (section 3): a DeviceSet is an ordered set of
device identifiers, where the empty set and the null value (`none`) are
distinct configurations. -/
abbrev DeviceSet : Type := Option (List Device)

/-- The resolved execution context of the training step: a single device,
or data-parallel replication of the forward computation across several. -/
inductive ExecContext where
  | single (d : Device)
  | dataParallel (ds : List Device)
deriving Repr, DecidableEq

/-- Error taxonomy of the builder, from spec section 7. -/
inductive BuildError where
  | configurationError
deriving Repr, DecidableEq

/-- Modelled from the spec: presence of a device on a host; CPU is always
present, an accelerator iff its index is listed. -/
def devicePresent (host : List Nat) : Device → Bool
  | Device.cpu => true
  | Device.accel i => host.contains i

/-- Modelled from the spec (section 4.2 step 1 and its edge cases): device
resolution of `create_multigpu_supervised_trainer`.  An empty DeviceSet
forces CPU; a singleton runs on that device; null/unspecified
auto-discovers all present accelerators and replicates across them,
silently falling back to CPU when none are present; several explicit
entries data-parallelise over exactly those; naming an absent device is an
immediate ConfigurationError. -/
def resolveDevices (host : List Nat) (ds : DeviceSet) : Except BuildError ExecContext :=
  match ds with
  | none =>
    if host.isEmpty then Except.ok (ExecContext.single Device.cpu)
    else Except.ok (ExecContext.dataParallel (host.map Device.accel))
  | some [] => Except.ok (ExecContext.single Device.cpu)
  | some [d] =>
    if devicePresent host d then Except.ok (ExecContext.single d)
    else Except.error BuildError.configurationError
  | some more =>
    if more.all (devicePresent host) then Except.ok (ExecContext.dataParallel more)
    else Except.error BuildError.configurationError

/-- Modelled from the spec: a TrainingStepUnit owns the resolved execution
context and the mutable model-and-optimizer state, abstracted to a state
type as spec section 9 directs. -/
structure TrainingStepUnit (σ : Type) where
  ctx : ExecContext
  state : σ

/-- Modelled from the spec: `buildTrainer(model, optimizer, lossFn,
deviceSet) -> TrainingStepUnit`; the device-resolution error surfaces at
build time, before any step runs. -/
def buildTrainer {σ : Type} (host : List Nat) (ds : DeviceSet) (s0 : σ) :
    Except BuildError (TrainingStepUnit σ) :=
  (resolveDevices host ds).map (fun c => TrainingStepUnit.mk c s0)

/-- Modelled from the spec (state machine of section 4.2): one invocation,
Idle to Stepping to Idle — the step function updates the owned state and
the invocation completes returning the scalar loss. -/
def invokeStep {σ β : Type} (stepFn : σ → β → σ × Int) (u : TrainingStepUnit σ)
    (b : β) : TrainingStepUnit σ × Int :=
  let (s2, loss) := stepFn u.state b
  (TrainingStepUnit.mk u.ctx s2, loss)

/-- Execution metadata recorded by the engine, from spec sections 4.2
(step 3) and 6: epoch and iteration counters and the scalar loss recorded
at each step. -/
structure ExecutionState where
  epoch : Nat
  iteration : Nat
  losses : List Int
deriving Repr, DecidableEq

/-- Modelled from the spec: the iteration loop of one epoch — each
iteration reads the next stream item (the cursor is the number of items
consumed so far), invokes the step, records the loss and advances the
iteration counter. -/
def runIters {σ β : Type} (stepFn : σ → β → σ × Int) (stream : Nat → β) :
    Nat → σ × ExecutionState × Nat → σ × ExecutionState × Nat
  | 0, st => st
  | k + 1, (s, es, cur) =>
    let (s2, loss) := stepFn s (stream cur)
    runIters stepFn stream k
      (s2, { es with iteration := es.iteration + 1, losses := es.losses ++ [loss] }, cur + 1)

/-- Modelled from the spec: the epoch loop — each epoch consumes exactly
`epochLength` items from the stream, then the epoch counter advances. -/
def runEpochs {σ β : Type} (stepFn : σ → β → σ × Int) (stream : Nat → β)
    (epochLength : Nat) :
    Nat → σ × ExecutionState × Nat → σ × ExecutionState × Nat
  | 0, st => st
  | e + 1, st =>
    let (s2, es2, cur2) := runIters stepFn stream epochLength st
    runEpochs stepFn stream epochLength e (s2, { es2 with epoch := es2.epoch + 1 }, cur2)

/-- Modelled from the spec: `TrainingStepUnit.run(dataStream, maxEpochs,
epochLength) -> ExecutionState` — `maxEpochs` epochs of `epochLength`
iterations over a (possibly infinite) data stream, starting from fresh
counters; the result also carries the final step state and the final
stream cursor (how many items were consumed). -/
def runTrainer {σ β : Type} (stepFn : σ → β → σ × Int) (s0 : σ) (stream : Nat → β)
    (maxEpochs epochLength : Nat) : σ × ExecutionState × Nat :=
  runEpochs stepFn stream epochLength maxEpochs (s0, ExecutionState.mk 0 0 [], 0)

/-- From the source (`multi_gpu_test.ipynb`, `fake_data_stream`): an
infinite generator yielding pairs of tensors of shape (10, 1, 64, 64)
forever; the entries come from `torch.rand` in the source, modelled by
the `vals` parameter. -/
def fake_data_stream (vals : Nat → Nat → Int) (k : Nat) : Tensor × Tensor :=
  (Tensor.mk [10, 1, 64, 64] ((List.range (10 * 1 * 64 * 64)).map (vals (2 * k))),
   Tensor.mk [10, 1, 64, 64] ((List.range (10 * 1 * 64 * 64)).map (vals (2 * k + 1))))

end MultiGpu

namespace EvalLoop

open Decollate

/-- From the source (`decollate_batch.ipynb`, evaluation cell): one
iteration of the loop run under `model.eval()` and `torch.no_grad()` —
sliding-window inference computes the prediction field from the images,
the enlarged record is decollated, every sample is postprocessed, and the
metric state accumulates the postprocessed samples.  The external calls
(inference, postprocessing, metric update) are modelled as pure functions
of their inputs, which is the contract eval/no-grad mode gives them. -/
def evalIteration {μ ρ : Type} (infer : μ → List Tensor → List Tensor)
    (post : SampleRecord Tensor → SampleRecord Tensor)
    (accum : ρ → List (SampleRecord Tensor) → ρ)
    (m : μ) (acc : ρ) (imgs segs : List Tensor) : ρ :=
  let preds := infer m imgs
  let data : BatchRecord Tensor :=
    [("img", FieldVal.batch imgs), ("seg", FieldVal.batch segs),
     ("pred", FieldVal.batch preds)]
  match decollate_batch data with
  | Except.ok samples => accum acc (samples.map post)
  | Except.error _ => acc

/-- From the source: the evaluation loop over the data loader, threading
the pair (model, metric state) through the iterations exactly as the
notebook cell does; only the metric state is rebound. -/
def evalLoop {μ ρ : Type} (infer : μ → List Tensor → List Tensor)
    (post : SampleRecord Tensor → SampleRecord Tensor)
    (accum : ρ → List (SampleRecord Tensor) → ρ) :
    List (List Tensor × List Tensor) → μ × ρ → μ × ρ
  | [], st => st
  | (imgs, segs) :: rest, (m, acc) =>
    evalLoop infer post accum rest
      (m, evalIteration infer post accum m acc imgs segs)

end EvalLoop

namespace Decollate

theorem decollateLoop_snd {α : Type} (st : BatchRecord α) (is : List Nat) :
    (decollateLoop st is).2 = st := by
  induction is with
  | nil => rfl
  | cons i is ih => simp [decollateLoop, ih]

theorem decollateLoop_fst {α : Type} (st : BatchRecord α) (is : List Nat) :
    (decollateLoop st is).1 = is.map (sampleAt st) := by
  induction is with
  | nil => rfl
  | cons i is ih => simp [decollateLoop, ih]

theorem decollate_batch_eq_ok {α : Type} (rec : BatchRecord α) (n : Nat)
    (hb : batchSize? rec = some n) (hc : consistent rec n = true) :
    decollate_batch rec = Except.ok ((List.range n).map (sampleAt rec)) := by
  unfold decollate_batch decollate_batchS
  rw [hb]
  simp [hc, decollateLoop_fst]

theorem decollate_batch_ok_inv {α : Type} (rec : BatchRecord α)
    (samples : List (SampleRecord α))
    (h : decollate_batch rec = Except.ok samples) :
    ∃ n, batchSize? rec = some n ∧ consistent rec n = true ∧
      samples = (List.range n).map (sampleAt rec) := by
  unfold decollate_batch decollate_batchS at h
  cases hb : batchSize? rec with
  | none => rw [hb] at h; simp at h
  | some n =>
    rw [hb] at h
    by_cases hc : consistent rec n = true
    · refine ⟨n, rfl, hc, ?_⟩
      simp [hc, decollateLoop_fst] at h
      exact h.symm
    · simp [hc] at h

theorem batchSize?_of_all_batch {α : Type} (rec : BatchRecord α) (n : Nat)
    (hne : rec ≠ [])
    (hall : ∀ kv ∈ rec, ∃ items, kv.2 = FieldVal.batch items ∧ items.length = n) :
    batchSize? rec = some n := by
  cases rec with
  | nil => exact absurd rfl hne
  | cons a t =>
    obtain ⟨a1, a2⟩ := a
    obtain ⟨items, hfv, hlen⟩ := hall (a1, a2) (List.mem_cons_self _ _)
    simp only at hfv
    subst hfv
    simp [batchSize?, List.findSome?_cons, hlen]

theorem consistent_of_all_batch {α : Type} (rec : BatchRecord α) (n : Nat)
    (hall : ∀ kv ∈ rec, ∃ items, kv.2 = FieldVal.batch items ∧ items.length = n) :
    consistent rec n = true := by
  unfold consistent
  rw [List.all_eq_true]
  intro kv hkv
  obtain ⟨items, hfv, hlen⟩ := hall kv hkv
  rw [hfv]
  simp [hlen]

theorem consistent_len {α : Type} (rec : BatchRecord α) (n : Nat)
    (hc : consistent rec n = true) (k : String) (items : List α)
    (h : (k, FieldVal.batch items) ∈ rec) : items.length = n := by
  unfold consistent at hc
  rw [List.all_eq_true] at hc
  have := hc _ h
  simpa using this

theorem batchSize?_of_mem {α : Type} (k : String) (xs : List α) :
    ∀ (rec : BatchRecord α), (k, FieldVal.batch xs) ∈ rec →
      ∃ m, batchSize? rec = some m := by
  intro rec
  induction rec with
  | nil => intro h; cases h
  | cons a t ih =>
    intro h
    obtain ⟨a1, a2⟩ := a
    cases a2 with
    | batch items =>
      exact ⟨items.length, by simp [batchSize?, List.findSome?_cons]⟩
    | shared v =>
      rcases List.mem_cons.mp h with h1 | h1
      · simp at h1
      · obtain ⟨m, hm⟩ := ih h1
        refine ⟨m, ?_⟩
        simpa [batchSize?, List.findSome?_cons] using hm

theorem sampleAt_keys {α : Type} (i : Nat) :
    ∀ (rec : BatchRecord α),
      (∀ kv ∈ rec, match kv.2 with
        | FieldVal.batch items => i < items.length
        | FieldVal.shared _ => True) →
      (sampleAt rec i).map Prod.fst = rec.map Prod.fst := by
  intro rec
  induction rec with
  | nil => intro _; rfl
  | cons a t ih =>
    intro h
    obtain ⟨a1, a2⟩ := a
    have ht := ih (fun kv hkv => h kv (List.mem_cons_of_mem _ hkv))
    cases a2 with
    | batch items =>
      have ha : i < items.length := h (a1, FieldVal.batch items) (List.mem_cons_self _ _)
      have hgi : items[i]? = some items[i] := List.getElem?_eq_getElem ha
      simp only [sampleAt, List.filterMap_cons, hgi, Option.map_some]
      simpa [sampleAt] using ht
    | shared v =>
      simp only [sampleAt, List.filterMap_cons]
      simpa [sampleAt] using ht

theorem lookup_sampleAt_of_not_mem {α : Type} (k : String) (i : Nat) :
    ∀ (rec : BatchRecord α), k ∉ rec.map Prod.fst →
      List.lookup k (sampleAt rec i) = none := by
  intro rec
  induction rec with
  | nil => intro _; rfl
  | cons a t ih =>
    intro hk
    obtain ⟨a1, a2⟩ := a
    have hk1 : k ≠ a1 := by
      intro he; exact hk (by simp [he])
    have hkt : k ∉ t.map Prod.fst := by
      intro he; exact hk (by simp [he])
    have hbeq : (k == a1) = false := beq_eq_false_iff_ne.mpr hk1
    cases a2 with
    | batch items =>
      cases hgi : items[i]? with
      | none =>
        simpa [sampleAt, List.filterMap_cons, hgi] using ih hkt
      | some x =>
        simpa [sampleAt, List.filterMap_cons, hgi, List.lookup, hbeq] using ih hkt
    | shared v =>
      simpa [sampleAt, List.filterMap_cons, List.lookup, hbeq] using ih hkt

theorem lookup_sampleAt {α : Type} (k : String) (fv : FieldVal α) (i : Nat) :
    ∀ (rec : BatchRecord α), (rec.map Prod.fst).Nodup → (k, fv) ∈ rec →
      List.lookup k (sampleAt rec i) =
        (match fv with
         | FieldVal.batch items => items[i]?
         | FieldVal.shared v => some v) := by
  intro rec
  induction rec with
  | nil => intro _ h; cases h
  | cons a t ih =>
    intro hnd hmem
    obtain ⟨a1, a2⟩ := a
    rw [List.map_cons, List.nodup_cons] at hnd
    rcases List.mem_cons.mp hmem with h1 | h1
    · have hk : k = a1 := congrArg Prod.fst h1
      have hv : fv = a2 := congrArg Prod.snd h1
      subst hk
      subst hv
      cases fv with
      | batch items =>
        cases hgi : items[i]? with
        | none =>
          simp only [hgi]
          simpa [sampleAt, List.filterMap_cons, hgi] using
            lookup_sampleAt_of_not_mem k i t hnd.1
        | some x =>
          simp [sampleAt, List.filterMap_cons, hgi, List.lookup]
      | shared v =>
        simp [sampleAt, List.filterMap_cons, List.lookup]
    · have hk1 : k ≠ a1 := by
        intro he
        subst he
        exact hnd.1 (by simpa using ⟨fv, h1⟩)
      have hbeq : (k == a1) = false := beq_eq_false_iff_ne.mpr hk1
      cases a2 with
      | batch items =>
        cases hgi : items[i]? with
        | none =>
          simpa [sampleAt, List.filterMap_cons, hgi] using ih hnd.2 h1
        | some x =>
          simpa [sampleAt, List.filterMap_cons, hgi, List.lookup, hbeq] using ih hnd.2 h1
      | shared v =>
        simpa [sampleAt, List.filterMap_cons, List.lookup, hbeq] using ih hnd.2 h1

theorem filterMap_range_getElem {α : Type} : ∀ (l : List α),
    (List.range l.length).filterMap (fun i => l[i]?) = l := by
  intro l
  induction l with
  | nil => rfl
  | cons a t ih =>
    rw [List.length_cons, List.range_succ_eq_map]
    rw [List.filterMap_cons]
    have h0 : (a :: t)[0]? = some a := by simp
    rw [h0]
    rw [List.filterMap_map]
    have hcomp : ((fun i => (a :: t)[i]?) ∘ Nat.succ) = (fun i => t[i]?) := by
      funext i
      simp
    rw [hcomp, ih]

theorem map_key_val_eq_self {α : Type} (g : String → FieldVal α) :
    ∀ (l : BatchRecord α), (∀ kv ∈ l, g kv.1 = kv.2) →
      (l.map Prod.fst).map (fun k => (k, g k)) = l := by
  intro l
  induction l with
  | nil => intro _; rfl
  | cons a t ih =>
    intro h
    simp only [List.map_cons]
    rw [h a (List.mem_cons_self _ _)]
    rw [ih (fun kv hkv => h kv (List.mem_cons_of_mem _ hkv))]

theorem collate_cons {α : Type} (s0 : SampleRecord α) (rest : List (SampleRecord α)) :
    collate (s0 :: rest) =
      s0.map (fun kv =>
        (kv.1, FieldVal.batch ((s0 :: rest).filterMap (fun s => List.lookup kv.1 s)))) := rfl

/-- C1: Round-trip law — for every BatchRecord with batch size N > 0 in
which every field is batch-shaped with outer length N (the field names
being distinct, as they form a mapping), `decollate_batch` produces
exactly N SampleRecords, and re-collating them (stacking each field along
a new outer axis, in order) yields the original BatchRecord. -/
theorem decollate_collate_roundtrip {α : Type} (rec : BatchRecord α) (n : Nat)
    (hn : 0 < n) (hne : rec ≠ [])
    (hall : ∀ kv ∈ rec, ∃ items, kv.2 = FieldVal.batch items ∧ items.length = n)
    (hnodup : (rec.map Prod.fst).Nodup) :
    ∃ samples, decollate_batch rec = Except.ok samples ∧ samples.length = n ∧
      collate samples = rec := by
  have hb := batchSize?_of_all_batch rec n hne hall
  have hc := consistent_of_all_batch rec n hall
  refine ⟨(List.range n).map (sampleAt rec), decollate_batch_eq_ok rec n hb hc, by simp, ?_⟩
  obtain ⟨m, rfl⟩ : ∃ m, n = m + 1 := ⟨n - 1, (Nat.succ_pred_eq_of_pos hn).symm⟩
  have hstack : ∀ kv ∈ rec,
      FieldVal.batch (((List.range (m + 1)).map (sampleAt rec)).filterMap
        (fun s => List.lookup kv.1 s)) = kv.2 := by
    intro kv hkv
    obtain ⟨items, hfv, hlen⟩ := hall kv hkv
    rw [List.filterMap_map]
    have h2 : (List.range (m + 1)).filterMap ((fun s => List.lookup kv.1 s) ∘ sampleAt rec)
        = (List.range (m + 1)).filterMap (fun i => items[i]?) := by
      apply List.filterMap_congr
      intro i _
      have hl := lookup_sampleAt kv.1 kv.2 i rec hnodup hkv
      rw [hfv] at hl
      exact hl
    rw [h2]
    have h3 : (List.range (m + 1)).filterMap (fun i => items[i]?) = items := by
      rw [← hlen]
      exact filterMap_range_getElem items
    rw [h3, hfv]
  have hkeys : (sampleAt rec 0).map Prod.fst = rec.map Prod.fst := by
    apply sampleAt_keys
    intro kv hkv
    obtain ⟨items, hfv, hlen⟩ := hall kv hkv
    rw [hfv]
    simp [hlen]
  have hsamp : (List.range (m + 1)).map (sampleAt rec)
      = sampleAt rec 0 :: ((List.range m).map Nat.succ).map (sampleAt rec) := by
    rw [List.range_succ_eq_map, List.map_cons]
  rw [hsamp, collate_cons, ← hsamp]
  have hGoal : ((sampleAt rec 0).map Prod.fst).map
      (fun k => (k, FieldVal.batch (((List.range (m + 1)).map (sampleAt rec)).filterMap
        (fun s => List.lookup k s)))) = rec := by
    rw [hkeys]
    exact map_key_val_eq_self _ rec hstack
  rw [List.map_map] at hGoal
  exact hGoal

/-- Witness for C1: the round-trip law at a concrete two-field record of
batch size 2. -/
theorem decollate_collate_roundtrip_witness :
    ∃ samples,
      decollate_batch (α := Int)
        [("a", FieldVal.batch [1, 2]), ("b", FieldVal.batch [3, 4])] = Except.ok samples ∧
      samples.length = 2 ∧
      collate samples = [("a", FieldVal.batch [1, 2]), ("b", FieldVal.batch [3, 4])] :=
  decollate_collate_roundtrip _ 2 (by decide) (by simp)
    (by
      intro kv hkv
      rcases List.mem_cons.mp hkv with h | h
      · exact ⟨[1, 2], by rw [h], rfl⟩
      · rcases List.mem_cons.mp h with h2 | h2
        · exact ⟨[3, 4], by rw [h2], rfl⟩
        · cases h2)
    (by decide)

/-- C2: elementwise decollation contract — for a BatchRecord whose fields
are all batch-shaped of outer length N, decollation succeeds with N
samples; the i-th sample has exactly the input's field names (in order),
and maps each field name to the i-th element of that field's batch-major
value. -/
theorem decollate_elementwise {α : Type} (rec : BatchRecord α) (n : Nat)
    (hne : rec ≠ [])
    (hall : ∀ kv ∈ rec, ∃ items, kv.2 = FieldVal.batch items ∧ items.length = n)
    (hnodup : (rec.map Prod.fst).Nodup) :
    ∃ samples, decollate_batch rec = Except.ok samples ∧ samples.length = n ∧
      ∀ (i : Nat) (s : SampleRecord α), samples[i]? = some s →
        s.map Prod.fst = rec.map Prod.fst ∧
        ∀ (k : String) (items : List α),
          (k, FieldVal.batch items) ∈ rec → List.lookup k s = items[i]? := by
  have hb := batchSize?_of_all_batch rec n hne hall
  have hc := consistent_of_all_batch rec n hall
  refine ⟨(List.range n).map (sampleAt rec), decollate_batch_eq_ok rec n hb hc, by simp, ?_⟩
  intro i s hs
  have hi : i < n := by
    by_contra hge
    push_neg at hge
    have hnone : ((List.range n).map (sampleAt rec))[i]? = none := by
      apply List.getElem?_eq_none
      simpa using hge
    rw [hnone] at hs
    cases hs
  have hsome : ((List.range n).map (sampleAt rec))[i]? = some (sampleAt rec i) := by
    rw [List.getElem?_map, List.getElem?_range hi]
    rfl
  rw [hsome] at hs
  have hsi : sampleAt rec i = s := Option.some.inj hs
  subst hsi
  constructor
  · apply sampleAt_keys
    intro kv hkv
    obtain ⟨items, hfv, hlen⟩ := hall kv hkv
    rw [hfv]
    simp [hlen, hi]
  · intro k items hk
    have hl := lookup_sampleAt k (FieldVal.batch items) i rec hnodup hk
    simpa using hl

/-- Witness for C2 at a concrete two-field record of batch size 2. -/
theorem decollate_elementwise_witness :
    ∃ samples,
      decollate_batch (α := Int)
        [("a", FieldVal.batch [1, 2]), ("b", FieldVal.batch [3, 4])] = Except.ok samples ∧
      samples.length = 2 ∧
      ∀ (i : Nat) (s : SampleRecord Int), samples[i]? = some s →
        s.map Prod.fst =
          List.map Prod.fst
            [("a", FieldVal.batch (α := Int) [1, 2]), ("b", FieldVal.batch [3, 4])] ∧
        ∀ (k : String) (items : List Int),
          (k, FieldVal.batch items) ∈
            [("a", FieldVal.batch (α := Int) [1, 2]), ("b", FieldVal.batch [3, 4])] →
          List.lookup k s = items[i]? :=
  decollate_elementwise _ 2 (by simp)
    (by
      intro kv hkv
      rcases List.mem_cons.mp hkv with h | h
      · exact ⟨[1, 2], by rw [h], rfl⟩
      · rcases List.mem_cons.mp h with h2 | h2
        · exact ⟨[3, 4], by rw [h2], rfl⟩
        · cases h2)
    (by decide)

/-- C3: two batch-shaped fields with differing outer lengths (shared
metadata being a different constructor altogether) make decollation fail
with InconsistentBatchSize. -/
theorem decollate_inconsistent {α : Type} (rec : BatchRecord α)
    (k1 k2 : String) (xs ys : List α)
    (h1 : (k1, FieldVal.batch xs) ∈ rec) (h2 : (k2, FieldVal.batch ys) ∈ rec)
    (hlen : xs.length ≠ ys.length) :
    decollate_batch rec = Except.error DecollateError.inconsistentBatchSize := by
  obtain ⟨m, hm⟩ := batchSize?_of_mem k1 xs rec h1
  have hc : consistent rec m = false := by
    cases hcv : consistent rec m
    · rfl
    · have e1 := consistent_len rec m hcv k1 xs h1
      have e2 := consistent_len rec m hcv k2 ys h2
      exact absurd (e1.trans e2.symm) hlen
  unfold decollate_batch decollate_batchS
  rw [hm]
  simp [hc]

/-- Witness for C3: fields of lengths 2 and 3 produce the
InconsistentBatchSize error. -/
theorem decollate_inconsistent_witness :
    decollate_batch (α := Int)
      [("a", FieldVal.batch [1, 2]), ("b", FieldVal.batch [3, 4, 5])] =
      Except.error DecollateError.inconsistentBatchSize :=
  decollate_inconsistent _ "a" "b" [1, 2] [3, 4, 5] (by decide) (by decide) (by decide)

/-- C7: shared-metadata broadcast — a field marked shared carries the same
value, unchanged, in every produced SampleRecord. -/
theorem decollate_shared_broadcast {α : Type} (rec : BatchRecord α) (k : String) (v : α)
    (samples : List (SampleRecord α))
    (hnodup : (rec.map Prod.fst).Nodup)
    (hmem : (k, FieldVal.shared v) ∈ rec)
    (hok : decollate_batch rec = Except.ok samples) :
    ∀ s ∈ samples, List.lookup k s = some v := by
  obtain ⟨n, hb, hc, hsamp⟩ := decollate_batch_ok_inv rec samples hok
  subst hsamp
  intro s hs
  rw [List.mem_map] at hs
  obtain ⟨i, hi, rfl⟩ := hs
  have hl := lookup_sampleAt k (FieldVal.shared v) i rec hnodup hmem
  simpa using hl

/-- Witness for C7: the shared scalar field 9 appears unchanged in the
first produced sample. -/
theorem decollate_shared_broadcast_witness :
    List.lookup "m" [("a", (1 : Int)), ("m", 9)] = some 9 :=
  decollate_shared_broadcast
    [("a", FieldVal.batch [1, 2]), ("m", FieldVal.shared 9)] "m" 9
    [[("a", (1 : Int)), ("m", 9)], [("a", 2), ("m", 9)]]
    (by decide) (by decide) (by rfl)
    [("a", (1 : Int)), ("m", 9)] (by decide)

/-- C8: decollation is side-effect free — in the state-passing embedding,
the record the caller holds after the call equals the input record: no
branch of `decollate_batchS` and no iteration of the sample-building loop
alters it. -/
theorem decollate_no_mutation {α : Type} (rec : BatchRecord α) :
    (decollate_batchS rec).2 = rec := by
  unfold decollate_batchS
  cases hb : batchSize? rec with
  | none => rfl
  | some n =>
    by_cases hc : consistent rec n = true
    · simp [hc, decollateLoop_snd]
    · simp [hc]

end Decollate

namespace MultiGpu

theorem runIters_spec {σ β : Type} (stepFn : σ → β → σ × Int) (stream : Nat → β) :
    ∀ (k : Nat) (s : σ) (es : ExecutionState) (cur : Nat),
      (runIters stepFn stream k (s, es, cur)).2.1.iteration = es.iteration + k ∧
      (runIters stepFn stream k (s, es, cur)).2.1.losses.length = es.losses.length + k ∧
      (runIters stepFn stream k (s, es, cur)).2.1.epoch = es.epoch ∧
      (runIters stepFn stream k (s, es, cur)).2.2 = cur + k := by
  intro k
  induction k with
  | zero => intro s es cur; simp [runIters]
  | succ k ih =>
    intro s es cur
    simp only [runIters]
    rcases hsp : stepFn s (stream cur) with ⟨s2, loss⟩
    obtain ⟨h1, h2, h3, h4⟩ :=
      ih s2 { es with iteration := es.iteration + 1, losses := es.losses ++ [loss] } (cur + 1)
    refine ⟨?_, ?_, ?_, ?_⟩
    · rw [h1]; simp; omega
    · rw [h2]; simp; omega
    · rw [h3]
    · rw [h4]; omega

theorem runEpochs_spec {σ β : Type} (stepFn : σ → β → σ × Int) (stream : Nat → β)
    (L : Nat) :
    ∀ (e : Nat) (s : σ) (es : ExecutionState) (cur : Nat),
      (runEpochs stepFn stream L e (s, es, cur)).2.1.iteration = es.iteration + e * L ∧
      (runEpochs stepFn stream L e (s, es, cur)).2.1.losses.length
        = es.losses.length + e * L ∧
      (runEpochs stepFn stream L e (s, es, cur)).2.1.epoch = es.epoch + e ∧
      (runEpochs stepFn stream L e (s, es, cur)).2.2 = cur + e * L := by
  intro e
  induction e with
  | zero => intro s es cur; simp [runEpochs]
  | succ e ih =>
    intro s es cur
    simp only [runEpochs]
    rcases hsp : runIters stepFn stream L (s, es, cur) with ⟨s2, es2, cur2⟩
    obtain ⟨g1, g2, g3, g4⟩ := runIters_spec stepFn stream L s es cur
    rw [hsp] at g1 g2 g3 g4
    simp only at g1 g2 g3 g4
    obtain ⟨h1, h2, h3, h4⟩ := ih s2 { es2 with epoch := es2.epoch + 1 } cur2
    refine ⟨?_, ?_, ?_, ?_⟩
    · rw [h1]; simp [g1, Nat.succ_mul]; omega
    · rw [h2]; simp [g2, Nat.succ_mul]; omega
    · rw [h3]; simp [g3]; omega
    · rw [h4]; rw [g4, Nat.succ_mul]; omega

/-- C9: termination despite the unbounded input stream — for every number
of epochs E and epoch length L, running the trainer over the infinite
generator `fake_data_stream` completes (the run function is total by
construction) with exactly E × L recorded training iterations, having
consumed exactly E × L items of the stream: `epoch_length` bounds
consumption per epoch. -/
theorem run_fake_stream_bounded {σ : Type} (stepFn : σ → Tensor × Tensor → σ × Int)
    (s0 : σ) (vals : Nat → Nat → Int) (E L : Nat) :
    (runTrainer stepFn s0 (fake_data_stream vals) E L).2.1.iteration = E * L ∧
    (runTrainer stepFn s0 (fake_data_stream vals) E L).2.2 = E * L := by
  obtain ⟨h1, _, _, h4⟩ :=
    runEpochs_spec stepFn (fake_data_stream vals) L E s0 (ExecutionState.mk 0 0 []) 0
  exact ⟨by simpa [runTrainer] using h1, by simpa [runTrainer] using h4⟩

/-- C6: running for max_epochs = 2 with epoch_length = 2 over the
synthetic fixed-shape data stream terminates with a final ExecutionState
whose iteration count is 4, with a scalar loss recorded at each of the 4
steps (losses are integers of the embedding, hence finite). -/
theorem run_two_epochs_iteration_count {σ : Type}
    (stepFn : σ → Tensor × Tensor → σ × Int) (s0 : σ) (vals : Nat → Nat → Int) :
    (runTrainer stepFn s0 (fake_data_stream vals) 2 2).2.1.iteration = 4 ∧
    (runTrainer stepFn s0 (fake_data_stream vals) 2 2).2.1.losses.length = 4 := by
  obtain ⟨h1, h2, _, _⟩ :=
    runEpochs_spec stepFn (fake_data_stream vals) 2 2 s0 (ExecutionState.mk 0 0 []) 0
  exact ⟨by simpa [runTrainer] using h1, by simpa [runTrainer] using h2⟩

/-- C4: device resolution of the builder — the empty DeviceSet resolves to
CPU; a singleton DeviceSet naming a present device resolves to that
device; the null/unspecified DeviceSet auto-discovers all present
accelerators and replicates across them (falling back to CPU only when
none exist); and empty and null are distinct configurations that resolve
differently whenever an accelerator is present. -/
theorem device_resolution (host : List Nat) (d : Device)
    (hd : devicePresent host d = true) :
    resolveDevices host (some []) = Except.ok (ExecContext.single Device.cpu) ∧
    resolveDevices host (some [d]) = Except.ok (ExecContext.single d) ∧
    (host ≠ [] →
      resolveDevices host none =
        Except.ok (ExecContext.dataParallel (host.map Device.accel))) ∧
    (host = [] → resolveDevices host none = Except.ok (ExecContext.single Device.cpu)) ∧
    (some ([] : List Device) ≠ (none : DeviceSet)) ∧
    (host ≠ [] → resolveDevices host (some []) ≠ resolveDevices host none) := by
  refine ⟨rfl, ?_, ?_, ?_, by simp, ?_⟩
  · simp [resolveDevices, hd]
  · intro hne
    have : host.isEmpty = false := by
      cases host
      · exact absurd rfl hne
      · rfl
    simp [resolveDevices, this]
  · intro he
    subst he
    rfl
  · intro hne
    have : host.isEmpty = false := by
      cases host
      · exact absurd rfl hne
      · rfl
    simp [resolveDevices, this]

/-- Witness for C4 on a host with one accelerator, the singleton set
naming the CPU device. -/
theorem device_resolution_witness :
    resolveDevices [0] (some []) = Except.ok (ExecContext.single Device.cpu) ∧
    resolveDevices [0] (some [Device.cpu]) = Except.ok (ExecContext.single Device.cpu) ∧
    ([0] ≠ ([] : List Nat) →
      resolveDevices [0] none =
        Except.ok (ExecContext.dataParallel ([0].map Device.accel))) ∧
    ([0] = ([] : List Nat) →
      resolveDevices [0] none = Except.ok (ExecContext.single Device.cpu)) ∧
    (some ([] : List Device) ≠ (none : DeviceSet)) ∧
    ([0] ≠ ([] : List Nat) → resolveDevices [0] (some []) ≠ resolveDevices [0] none) :=
  device_resolution [0] Device.cpu (by decide)

/-- C5: on a host with zero accelerator devices, the null/auto-discovery
DeviceSet builds successfully — no ConfigurationError — with CPU
execution, and invoking the built TrainingStepUnit completes normally,
returning the updated state and the scalar loss of the step. -/
theorem auto_discovery_cpu_fallback {σ : Type} (s0 : σ) :
    ∃ u : TrainingStepUnit σ,
      buildTrainer ([] : List Nat) none s0 = Except.ok u ∧
      u.ctx = ExecContext.single Device.cpu ∧
      ∀ (β : Type) (stepFn : σ → β → σ × Int) (b : β),
        invokeStep stepFn u b =
          (TrainingStepUnit.mk (ExecContext.single Device.cpu) (stepFn s0 b).1,
           (stepFn s0 b).2) := by
  refine ⟨TrainingStepUnit.mk (ExecContext.single Device.cpu) s0, rfl, rfl, ?_⟩
  intro β stepFn b
  simp [invokeStep]

end MultiGpu

namespace EvalLoop

/-- C10: the decollate-based evaluation workflow is read-only with respect
to the model — the model threaded through the evaluation loop (inference,
decollation, per-sample postprocessing, metric accumulation) is the same
after the loop as before it; only the metric state is rebound. -/
theorem evalLoop_model_invariant {μ ρ : Type} (infer : μ → List Tensor → List Tensor)
    (post : Decollate.SampleRecord Tensor → Decollate.SampleRecord Tensor)
    (accum : ρ → List (Decollate.SampleRecord Tensor) → ρ) :
    ∀ (batches : List (List Tensor × List Tensor)) (m : μ) (acc : ρ),
      (evalLoop infer post accum batches (m, acc)).1 = m := by
  intro batches
  induction batches with
  | nil => intro m acc; rfl
  | cons b rest ih =>
    intro m acc
    obtain ⟨imgs, segs⟩ := b
    simp [evalLoop, ih]

end EvalLoop
